/-
Verification of the spartan trading system core against its specification.

This file shallowly embeds the Python source of the repository in Lean 4:

* `spartan_trading_system/simulation/pnl_simulator.py`
    (`Position`, `ClosedTrade`, `PnLSimulator` with `open_position`,
     `close_position`, `update_positions`, `should_close`, PnL arithmetic),
* `spartan_trading_system/data/data_cache.py`
    (byte accounting of `put` / `_evict_lru` / `_ensure_capacity`,
     `invalidate`),
* `spartan_trading_system/data/data_models.py` (`DataRequest.get_cache_key`),
* `indicators/technical_indicators.py` (`trend_magic_v3` recurrence),
* `spartan_trading_system/monitoring/strategy_monitor.py`
    (signal-detection conditions in `_process_symbol`).

Modelling conventions:
* Python floats are modelled as exact rationals (`ℚ`); `NaN`-carrying
  series (CCI, ATR, the trend-magic line) are modelled as `Option ℚ`
  with `none` for `NaN`.  Python comparisons `nan >= 0`, `nan > 0` are
  `False`, which the embedding mirrors explicitly.
* Python `dict`s (insertion-ordered) are modelled as association lists
  with the newest binding at the end; `OrderedDict` in the cache is the
  same with the LRU entry at the head.
* `datetime.now()` timestamps are threaded as explicit `Nat` parameters
  (minutes); `strftime` at minute resolution is injective, modelled by
  `toString`.
* Side effects that do not touch the simulated state (logging, the
  SQLite trade logger, `position_metadata` bookkeeping used only for
  logging) are omitted.
* The module-level constants `AUTO_CLOSE_ON_TARGET`, `MAX_OPEN_POSITIONS`,
  `INITIAL_BALANCE`, `POSITION_SIZE` are imported by the source from
  `config/settings.py` but are not present in that file as distributed;
  following the specification (configuration surface: `autoCloseOnTarget`,
  `maxPositions`, `positionSize`, balances) they are threaded as explicit
  parameters of the embedded functions.
-/
import Mathlib

/-! ## Fees (config/settings.py lines 47-49) -/

/-- `maker_fee: float = 0.0004` from `config/settings.py`. -/
def maker_fee : ℚ := 4 / 10000

/-- `taker_fee: float = 0.0005` from `config/settings.py`. -/
def taker_fee : ℚ := 5 / 10000

/-! ## Association-list helpers (Python `dict` with insertion order) -/

/-- Python `d[k]` / `k in d` on an insertion-ordered dict modelled as an
association list.  Keys of reachable dicts are distinct, so taking the
first binding is exact. -/
def lookupKey {α : Type} (k : String) : List (String × α) → Option α
  | [] => none
  | (k', v) :: t => if k' = k then some v else lookupKey k t

/-- Python `del d[k]` (and `OrderedDict.pop(k)`): drop the binding of `k`
(dict keys are unique, so dropping every matching binding is exact). -/
def removeKey {α : Type} (k : String) : List (String × α) → List (String × α)
  | [] => []
  | kv :: t => if kv.1 = k then removeKey k t else kv :: removeKey k t

theorem lookupKey_removeKey {α : Type} (k k' : String) (l : List (String × α)) :
    lookupKey k (removeKey k' l) =
      if k = k' then none else lookupKey k l := by
  induction l with
  | nil => simp [removeKey, lookupKey]
  | cons kv t ih =>
    by_cases h1 : kv.1 = k' <;> by_cases hk : k = k' <;>
      by_cases h2 : kv.1 = k <;> simp_all [removeKey, lookupKey]

theorem lookupKey_eq_some_of_mem_nodup {α : Type} {k : String} {v : α}
    {l : List (String × α)} (hmem : (k, v) ∈ l)
    (hnd : (l.map Prod.fst).Nodup) : lookupKey k l = some v := by
  induction l with
  | nil => cases hmem
  | cons kv t ih =>
    simp only [List.map_cons, List.nodup_cons] at hnd
    rcases List.mem_cons.mp hmem with h | h
    · cases h; simp [lookupKey]
    · have hne : kv.1 ≠ k := by
        intro he
        exact hnd.1 (he ▸ (List.mem_map.mpr ⟨(k, v), h, rfl⟩))
      simp [lookupKey, hne, ih h hnd.2]

theorem lookupKey_isSome_of_mem {α : Type} {k : String} {v : α}
    {l : List (String × α)} (hmem : (k, v) ∈ l) :
    (lookupKey k l).isSome := by
  induction l with
  | nil => cases hmem
  | cons kv t ih =>
    rcases List.mem_cons.mp hmem with h | h
    · cases h; simp [lookupKey]
    · by_cases he : kv.1 = k <;> simp [lookupKey, he, ih h]

/-! ## PnL simulator data model (`pnl_simulator.py`) -/

/-- `class PositionSide(Enum)`. -/
inductive PositionSide
  | LONG
  | SHORT
deriving DecidableEq, Repr

/-- `class CloseReason(Enum)`. -/
inductive CloseReason
  | TAKE_PROFIT
  | STOP_LOSS
  | MANUAL
deriving DecidableEq, Repr

/-- `@dataclass class Position` (entry time in abstract minutes). -/
structure Position where
  symbol : String
  side : PositionSide
  entry_price : ℚ
  quantity : ℚ
  stop_loss : ℚ
  take_profit : ℚ
  entry_time : Nat
  entry_commission : ℚ
deriving DecidableEq, Repr

/-- `Position.calculate_pnl`: gross PnL without commissions. -/
def Position.calculate_pnl (p : Position) (current_price : ℚ) : ℚ :=
  match p.side with
  | PositionSide.LONG => (current_price - p.entry_price) * p.quantity
  | PositionSide.SHORT => (p.entry_price - current_price) * p.quantity

/-- `Position.calculate_real_pnl`: gross PnL minus entry and exit
commissions. -/
def Position.calculate_real_pnl (p : Position) (current_price : ℚ)
    (exit_commission : ℚ) : ℚ :=
  p.calculate_pnl current_price - (p.entry_commission + exit_commission)

/-- `Position.should_close`: bracket evaluation.  `auto_close` is the
`AUTO_CLOSE_ON_TARGET` flag (modelled from the spec as an explicit
parameter, see the header comment): when it is false no bracket
evaluation happens. -/
def Position.should_close (p : Position) (auto_close : Bool)
    (current_price : ℚ) : Option CloseReason :=
  if auto_close = false then none
  else
    match p.side with
    | PositionSide.LONG =>
      if current_price ≤ p.stop_loss then some CloseReason.STOP_LOSS
      else if p.take_profit ≤ current_price then some CloseReason.TAKE_PROFIT
      else none
    | PositionSide.SHORT =>
      if p.stop_loss ≤ current_price then some CloseReason.STOP_LOSS
      else if current_price ≤ p.take_profit then some CloseReason.TAKE_PROFIT
      else none

/-- `@dataclass class ClosedTrade`. -/
structure ClosedTrade where
  symbol : String
  side : PositionSide
  entry_price : ℚ
  exit_price : ℚ
  quantity : ℚ
  entry_time : Nat
  exit_time : Nat
  gross_pnl : ℚ
  real_pnl : ℚ
  total_commissions : ℚ
  close_reason : CloseReason
  stop_loss : ℚ
  take_profit : ℚ
deriving DecidableEq, Repr

/-- `ClosedTrade.is_winner` property. -/
def ClosedTrade.is_winner (t : ClosedTrade) : Bool :=
  decide (0 < t.real_pnl)

/-- `class PnLSimulator` state.  `max_positions`, fees and the balances
are the constructor-time configuration; the logger, metadata map and
debug flag are logging-only and omitted. -/
structure PnLSimulator where
  initial_balance : ℚ
  current_balance : ℚ
  open_positions : List (String × Position)
  closed_trades : List ClosedTrade
  max_positions : Nat
  maker_fee : ℚ
  taker_fee : ℚ
  total_trades : Nat
  winning_trades : Nat
  total_commissions_paid : ℚ
deriving DecidableEq, Repr

/-- `PnLSimulator.__init__` (balance and limits are configuration
modelled from the spec, see header). -/
def mkSimulator (initial_balance : ℚ) (max_positions : Nat) : PnLSimulator :=
  { initial_balance := initial_balance
    current_balance := initial_balance
    open_positions := []
    closed_trades := []
    max_positions := max_positions
    maker_fee := maker_fee
    taker_fee := taker_fee
    total_trades := 0
    winning_trades := 0
    total_commissions_paid := 0 }

/-- `PnLSimulator.can_open_position`. -/
def PnLSimulator.can_open_position (st : PnLSimulator) : Bool :=
  decide (st.open_positions.length < st.max_positions)

/-- `PnLSimulator.open_position`.  Returns the boolean result together
with the successor state.  `side` is the `'LONG'` / `'SHORT'` string of
the source; `now` stands for `datetime.now()`. -/
def PnLSimulator.open_position (st : PnLSimulator) (symbol : String)
    (side : String) (entry_price quantity stop_loss take_profit : ℚ)
    (now : Nat) : Bool × PnLSimulator :=
  if st.can_open_position = false then (false, st)
  else if (lookupKey symbol st.open_positions).isSome then (false, st)
  else
    let entry_commission := entry_price * quantity * st.maker_fee
    let position : Position :=
      { symbol := symbol
        side := if side = "LONG" then PositionSide.LONG else PositionSide.SHORT
        entry_price := entry_price
        quantity := quantity
        stop_loss := stop_loss
        take_profit := take_profit
        entry_time := now
        entry_commission := entry_commission }
    (true,
      { st with
          open_positions := st.open_positions ++ [(symbol, position)]
          total_commissions_paid :=
            st.total_commissions_paid + entry_commission })

/-- `PnLSimulator.close_position`.  Returns the optional `ClosedTrade`
together with the successor state; `now` stands for `datetime.now()`. -/
def PnLSimulator.close_position (st : PnLSimulator) (symbol : String)
    (exit_price : ℚ) (reason : CloseReason) (now : Nat) :
    Option ClosedTrade × PnLSimulator :=
  match lookupKey symbol st.open_positions with
  | none => (none, st)
  | some position =>
    let exit_commission := exit_price * position.quantity * st.taker_fee
    let gross_pnl := position.calculate_pnl exit_price
    let real_pnl := position.calculate_real_pnl exit_price exit_commission
    let total_commissions := position.entry_commission + exit_commission
    let closed_trade : ClosedTrade :=
      { symbol := symbol
        side := position.side
        entry_price := position.entry_price
        exit_price := exit_price
        quantity := position.quantity
        entry_time := position.entry_time
        exit_time := now
        gross_pnl := gross_pnl
        real_pnl := real_pnl
        total_commissions := total_commissions
        close_reason := reason
        stop_loss := position.stop_loss
        take_profit := position.take_profit }
    (some closed_trade,
      { st with
          closed_trades := st.closed_trades ++ [closed_trade]
          total_trades := st.total_trades + 1
          total_commissions_paid :=
            st.total_commissions_paid + exit_commission
          current_balance := st.current_balance + real_pnl
          winning_trades :=
            if closed_trade.is_winner then st.winning_trades + 1
            else st.winning_trades
          open_positions := removeKey symbol st.open_positions })

/-- The `positions_to_close` list built by `update_positions`: every open
position whose symbol appears in the market data and whose bracket fires,
paired with the observed price and the close reason. -/
def PnLSimulator.positions_to_close (st : PnLSimulator) (auto_close : Bool)
    (market_data : List (String × ℚ)) : List (String × ℚ × CloseReason) :=
  st.open_positions.filterMap (fun sp =>
    match lookupKey sp.1 market_data with
    | none => none
    | some current_price =>
      match sp.2.should_close auto_close current_price with
      | none => none
      | some reason => some (sp.1, current_price, reason))

/-- The closing loop at the end of `update_positions`:
`for symbol, price, reason in positions_to_close: close_position(...)`. -/
def foldClose (st : PnLSimulator) (now : Nat)
    (to_close : List (String × ℚ × CloseReason)) : PnLSimulator :=
  to_close.foldl (fun acc t => (acc.close_position t.1 t.2.1 t.2.2 now).2) st

/-- `PnLSimulator.update_positions`: collect the positions whose bracket
fires under the supplied price map, then close each at the observed
price. -/
def PnLSimulator.update_positions (st : PnLSimulator) (auto_close : Bool)
    (market_data : List (String × ℚ)) (now : Nat) : PnLSimulator :=
  foldClose st now (st.positions_to_close auto_close market_data)

/-! ## Signal detection (`strategy_monitor.py`, `_process_symbol`) -/

/-- BUY (LONG) condition of `_process_symbol`:
`open_price < tm_value and current_price > tm_value and tm_color == 'BLUE'
and squeeze_color in ['MAROON', 'LIME']`. -/
def long_condition (open_price tm_value current_price : ℚ)
    (tm_color squeeze_color : String) : Bool :=
  decide (open_price < tm_value) && decide (tm_value < current_price) &&
    (tm_color == "BLUE") && (squeeze_color == "MAROON" || squeeze_color == "LIME")

/-- SELL (SHORT) condition of `_process_symbol`:
`open_price > tm_value and current_price < tm_value and tm_color == 'RED'
and squeeze_color in ['GREEN', 'RED']`. -/
def short_condition (open_price tm_value current_price : ℚ)
    (tm_color squeeze_color : String) : Bool :=
  decide (tm_value < open_price) && decide (current_price < tm_value) &&
    (tm_color == "RED") && (squeeze_color == "GREEN" || squeeze_color == "RED")

/-- The `if` / `elif` chain assigning `signal_detected`. -/
def detect_signal (open_price tm_value current_price : ℚ)
    (tm_color squeeze_color : String) : Option String :=
  if long_condition open_price tm_value current_price tm_color squeeze_color then
    some "LONG"
  else if short_condition open_price tm_value current_price tm_color squeeze_color then
    some "SHORT"
  else none

/-- C7: Signal exclusivity: for every candle context (open price, close
price, tmValue, tmColor, momentumColor), the LONG entry condition and the
SHORT entry condition of `_process_symbol` never both hold on the same
candle. -/
theorem C7_signal_exclusivity (open_price tm_value current_price : ℚ)
    (tm_color squeeze_color : String) :
    (long_condition open_price tm_value current_price tm_color squeeze_color &&
      short_condition open_price tm_value current_price tm_color squeeze_color) =
      false := by
  rw [Bool.eq_false_iff]
  intro h
  simp only [long_condition, short_condition, Bool.and_eq_true,
    decide_eq_true_eq, Bool.or_eq_true, beq_iff_eq] at h
  obtain ⟨⟨⟨⟨h1, -⟩, -⟩, -⟩, ⟨⟨h2, -⟩, -⟩, -⟩ := h
  exact absurd (h1.trans h2) (lt_irrefl open_price)

/-! ## Claims C9, C2, C3 about the simulator -/

/-- C9: for every symbol that has no open position, `close_position`
returns `none` and leaves the whole simulator state unchanged. -/
theorem C9_close_missing_symbol_noop (st : PnLSimulator) (symbol : String)
    (exit_price : ℚ) (reason : CloseReason) (now : Nat)
    (h : lookupKey symbol st.open_positions = none) :
    st.close_position symbol exit_price reason now = (none, st) := by
  simp [PnLSimulator.close_position, h]

theorem C9_close_missing_symbol_noop_witness :
    lookupKey "BTCUSDT" (mkSimulator 1000 5).open_positions = none ∧
    (mkSimulator 1000 5).close_position "BTCUSDT" 100 CloseReason.MANUAL 7 =
      (none, mkSimulator 1000 5) :=
  ⟨rfl, C9_close_missing_symbol_noop (mkSimulator 1000 5) "BTCUSDT" 100
    CloseReason.MANUAL 7 rfl⟩

/-- C2: `close_position` computes the exit commission as
`exit_price · quantity · taker_fee`, the gross PnL by side, the real PnL
as gross minus both commissions, and reports their sum as
`total_commissions` on the emitted trade. -/
theorem C2_close_position_formulas (st : PnLSimulator) (symbol : String)
    (p : Position) (exit_price : ℚ) (reason : CloseReason) (now : Nat)
    (h : lookupKey symbol st.open_positions = some p) :
    (st.close_position symbol exit_price reason now).1.map ClosedTrade.gross_pnl =
      some (match p.side with
        | PositionSide.LONG => (exit_price - p.entry_price) * p.quantity
        | PositionSide.SHORT => (p.entry_price - exit_price) * p.quantity) ∧
    (st.close_position symbol exit_price reason now).1.map ClosedTrade.real_pnl =
      some (p.calculate_pnl exit_price - p.entry_commission -
        exit_price * p.quantity * st.taker_fee) ∧
    (st.close_position symbol exit_price reason now).1.map
        ClosedTrade.total_commissions =
      some (p.entry_commission + exit_price * p.quantity * st.taker_fee) := by
  refine ⟨?_, ?_, ?_⟩ <;>
    cases hs : p.side <;>
      simp [PnLSimulator.close_position, h, Position.calculate_real_pnl,
        Position.calculate_pnl, hs] <;> ring

/-- The E2 scenario position: SHORT opened at 100, qty 1.0, sl 102, tp 98,
entry commission `100 · 1 · maker_fee`. -/
def positionE2 : Position :=
  { symbol := "BTCUSDT"
    side := PositionSide.SHORT
    entry_price := 100
    quantity := 1
    stop_loss := 102
    take_profit := 98
    entry_time := 0
    entry_commission := 100 * 1 * maker_fee }

/-- A simulator holding exactly the E2 position. -/
def simE2 : PnLSimulator :=
  { mkSimulator 1000 5 with open_positions := [("BTCUSDT", positionE2)] }

theorem C2_close_position_formulas_witness :
    lookupKey "BTCUSDT" simE2.open_positions = some positionE2 ∧
    (simE2.close_position "BTCUSDT" (979/10) CloseReason.TAKE_PROFIT 1).1.map
        ClosedTrade.real_pnl = some (201105/100000) := by
  refine ⟨rfl, ?_⟩
  have h := C2_close_position_formulas simE2 "BTCUSDT" positionE2 (979/10)
    CloseReason.TAKE_PROFIT 1 rfl
  rw [h.2.1]
  norm_num [positionE2, simE2, mkSimulator, Position.calculate_pnl,
    maker_fee, taker_fee]

/-- C3 counterexample: `open_position` accepts a requested quantity of 0
(the claim says quantity ≤ 0 is rejected); the position is added and the
call returns `true`. -/
theorem C3_open_position_counterexample :
    ((mkSimulator 1000 5).open_position "BTCUSDT" "LONG" 100 0 90 110 0).1 =
      true ∧
    (lookupKey "BTCUSDT"
      ((mkSimulator 1000 5).open_position "BTCUSDT" "LONG" 100 0 90 110
        0).2.open_positions).isSome = true := by
  decide

/-- C3 (amended): `open_position` returns `false` (leaving the state
unchanged) exactly when the number of open positions is ≥ `max_positions`
or a position for the symbol already exists; in every other case —
including a quantity ≤ 0, which the source does not validate — it returns
`true` and appends the position to the open set. -/
theorem C3_open_position_rejects (st : PnLSimulator) (symbol side : String)
    (entry_price quantity stop_loss take_profit : ℚ) (now : Nat) :
    ((st.open_position symbol side entry_price quantity stop_loss take_profit
        now).1 = false ↔
      st.max_positions ≤ st.open_positions.length ∨
        (lookupKey symbol st.open_positions).isSome = true) ∧
    ((st.open_position symbol side entry_price quantity stop_loss take_profit
        now).1 = false →
      (st.open_position symbol side entry_price quantity stop_loss take_profit
        now).2 = st) ∧
    ((st.open_position symbol side entry_price quantity stop_loss take_profit
        now).1 = true →
      (st.open_position symbol side entry_price quantity stop_loss take_profit
        now).2.open_positions =
        st.open_positions ++
          [(symbol,
            { symbol := symbol
              side := if side = "LONG" then PositionSide.LONG
                else PositionSide.SHORT
              entry_price := entry_price
              quantity := quantity
              stop_loss := stop_loss
              take_profit := take_profit
              entry_time := now
              entry_commission := entry_price * quantity * st.maker_fee })]) := by
  by_cases hcap : st.can_open_position = false
  · have hlen : st.max_positions ≤ st.open_positions.length := by
      simpa [PnLSimulator.can_open_position, not_lt] using hcap
    refine ⟨by simp [PnLSimulator.open_position, hcap, hlen], ?_, ?_⟩ <;>
      simp [PnLSimulator.open_position, hcap]
  · have hlen : ¬ st.max_positions ≤ st.open_positions.length := by
      simp only [PnLSimulator.can_open_position, Bool.not_eq_false,
        decide_eq_true_eq] at hcap
      exact not_le.mpr hcap
    by_cases hex : (lookupKey symbol st.open_positions).isSome
    · refine ⟨by simp [PnLSimulator.open_position, hcap, hex, hlen], ?_, ?_⟩ <;>
        simp [PnLSimulator.open_position, hcap, hex]
    · refine ⟨by simp [PnLSimulator.open_position, hcap, hex, hlen], ?_, ?_⟩ <;>
        simp [PnLSimulator.open_position, hcap, hex]

theorem C3_open_position_rejects_witness :
    (simE2.open_position "BTCUSDT" "LONG" 100 1 90 110 0).1 = false ∧
    (simE2.open_position "BTCUSDT" "LONG" 100 1 90 110 0).2 = simE2 := by
  have h := C3_open_position_rejects simE2 "BTCUSDT" "LONG" 100 1 90 110 0
  have hf : (simE2.open_position "BTCUSDT" "LONG" 100 1 90 110 0).1 = false := by
    decide
  exact ⟨hf, h.2.1 hf⟩

/-! ## Machinery for C1: how `update_positions` closes flagged positions -/

theorem foldClose_nil (st : PnLSimulator) (now : Nat) :
    foldClose st now [] = st := rfl

theorem foldClose_cons (st : PnLSimulator) (now : Nat)
    (a : String × ℚ × CloseReason) (L : List (String × ℚ × CloseReason)) :
    foldClose st now (a :: L) =
      foldClose ((st.close_position a.1 a.2.1 a.2.2 now).2) now L := rfl

theorem lookupKey_close_position_other (st : PnLSimulator) (sym sym' : String)
    (x : ℚ) (r : CloseReason) (n : Nat) (h : sym ≠ sym') :
    lookupKey sym ((st.close_position sym' x r n).2).open_positions =
      lookupKey sym st.open_positions := by
  cases hl : lookupKey sym' st.open_positions <;>
    simp [PnLSimulator.close_position, hl, lookupKey_removeKey, h]

theorem lookupKey_close_position_none (st : PnLSimulator) (sym' : String)
    (x : ℚ) (r : CloseReason) (n : Nat) {sym : String}
    (h : lookupKey sym st.open_positions = none) :
    lookupKey sym ((st.close_position sym' x r n).2).open_positions = none := by
  by_cases he : sym = sym'
  · subst he
    simp [PnLSimulator.close_position, h]
  · rw [lookupKey_close_position_other st sym sym' x r n he]
    exact h

theorem close_position_closed_trades (st : PnLSimulator) (sym : String)
    (x : ℚ) (r : CloseReason) (n : Nat) :
    ∃ l, ((st.close_position sym x r n).2).closed_trades =
      st.closed_trades ++ l := by
  cases hl : lookupKey sym st.open_positions with
  | none => exact ⟨[], by simp [PnLSimulator.close_position, hl]⟩
  | some p =>
    simp only [PnLSimulator.close_position, hl]
    exact ⟨_, rfl⟩

theorem close_position_hit (st : PnLSimulator) (sym : String) (x : ℚ)
    (r : CloseReason) (n : Nat) (p : Position)
    (h : lookupKey sym st.open_positions = some p) :
    lookupKey sym ((st.close_position sym x r n).2).open_positions = none ∧
    ∃ t, t ∈ ((st.close_position sym x r n).2).closed_trades ∧
      t.symbol = sym ∧ t.close_reason = r ∧ t.exit_price = x ∧
      t.side = p.side := by
  constructor
  · simp [PnLSimulator.close_position, h, lookupKey_removeKey]
  · simp only [PnLSimulator.close_position, h]
    exact ⟨_, List.mem_append_right _ (List.mem_singleton_self _),
      rfl, rfl, rfl, rfl⟩

theorem foldClose_closed_trades (now : Nat) :
    ∀ (L : List (String × ℚ × CloseReason)) (st : PnLSimulator),
      ∃ l, (foldClose st now L).closed_trades = st.closed_trades ++ l := by
  intro L
  induction L with
  | nil => intro st; exact ⟨[], by simp [foldClose_nil]⟩
  | cons a L ih =>
    intro st
    obtain ⟨l₀, h₀⟩ := close_position_closed_trades st a.1 a.2.1 a.2.2 now
    obtain ⟨l₁, h₁⟩ := ih ((st.close_position a.1 a.2.1 a.2.2 now).2)
    refine ⟨l₀ ++ l₁, ?_⟩
    rw [foldClose_cons, h₁, h₀, List.append_assoc]

theorem foldClose_lookup_none (now : Nat) :
    ∀ (L : List (String × ℚ × CloseReason)) (st : PnLSimulator) (sym : String),
      lookupKey sym st.open_positions = none →
      lookupKey sym (foldClose st now L).open_positions = none := by
  intro L
  induction L with
  | nil => intro st sym h; simpa [foldClose_nil] using h
  | cons a L ih =>
    intro st sym h
    rw [foldClose_cons]
    exact ih _ _ (lookupKey_close_position_none st a.1 a.2.1 a.2.2 now h)

theorem foldClose_lookup_not_mem (now : Nat) :
    ∀ (L : List (String × ℚ × CloseReason)) (st : PnLSimulator) (sym : String),
      sym ∉ L.map Prod.fst →
      lookupKey sym (foldClose st now L).open_positions =
        lookupKey sym st.open_positions := by
  intro L
  induction L with
  | nil => intro st sym _; rw [foldClose_nil]
  | cons a L ih =>
    intro st sym h
    simp only [List.map_cons, List.mem_cons, not_or] at h
    rw [foldClose_cons, ih _ _ h.2,
      lookupKey_close_position_other st sym a.1 a.2.1 a.2.2 now h.1]

theorem foldClose_hits (now : Nat) :
    ∀ (L : List (String × ℚ × CloseReason)) (st : PnLSimulator) (sym : String)
      (p : Position) (price : ℚ) (r : CloseReason),
      (sym, price, r) ∈ L → (L.map Prod.fst).Nodup →
      lookupKey sym st.open_positions = some p →
      lookupKey sym (foldClose st now L).open_positions = none ∧
      ∃ t, t ∈ (foldClose st now L).closed_trades ∧
        t.symbol = sym ∧ t.close_reason = r ∧ t.exit_price = price ∧
        t.side = p.side := by
  intro L
  induction L with
  | nil => intro st sym p price r hmem; cases hmem
  | cons a L ih =>
    intro st sym p price r hmem hnd hl
    simp only [List.map_cons, List.nodup_cons] at hnd
    rw [foldClose_cons]
    rcases List.mem_cons.mp hmem with he | hmem'
    · cases he
      obtain ⟨h1, t, ht, hsym, hr, hx, hside⟩ :=
        close_position_hit st sym price r now p hl
      refine ⟨foldClose_lookup_none now L _ sym h1, ?_⟩
      obtain ⟨l, hlw⟩ := foldClose_closed_trades now L _
      exact ⟨t, by rw [hlw]; exact List.mem_append_left _ ht,
        hsym, hr, hx, hside⟩
    · have hne : sym ≠ a.1 := by
        intro he'
        exact hnd.1 (he' ▸ List.mem_map.mpr ⟨(sym, price, r), hmem', rfl⟩)
      have hl₁ : lookupKey sym
          ((st.close_position a.1 a.2.1 a.2.2 now).2).open_positions = some p := by
        rw [lookupKey_close_position_other st sym a.1 a.2.1 a.2.2 now hne]
        exact hl
      exact ih _ sym p price r hmem' hnd.2 hl₁

theorem filterMap_close_fst_sublist (auto : Bool)
    (market : List (String × ℚ)) :
    ∀ (l : List (String × Position)),
      ((l.filterMap (fun sp =>
        match lookupKey sp.1 market with
        | none => none
        | some current_price =>
          match sp.2.should_close auto current_price with
          | none => none
          | some reason => some (sp.1, current_price, reason))).map
        Prod.fst).Sublist (l.map Prod.fst) := by
  intro l
  induction l with
  | nil => simp
  | cons sp t ih =>
    cases hm : lookupKey sp.1 market with
    | none =>
      simp only [List.filterMap_cons, hm, List.map_cons]
      exact ih.cons _
    | some price =>
      cases hs : sp.2.should_close auto price with
      | none =>
        simp only [List.filterMap_cons, hm, hs, List.map_cons]
        exact ih.cons _
      | some r =>
        simp only [List.filterMap_cons, hm, hs, List.map_cons]
        exact ih.cons₂ _

theorem positions_to_close_fst_nodup (st : PnLSimulator) (auto : Bool)
    (market : List (String × ℚ))
    (hnd : (st.open_positions.map Prod.fst).Nodup) :
    ((st.positions_to_close auto market).map Prod.fst).Nodup :=
  (filterMap_close_fst_sublist auto market st.open_positions).nodup hnd

theorem mem_positions_to_close {st : PnLSimulator} {auto : Bool}
    {market : List (String × ℚ)} {sym : String} {p : Position} {price : ℚ}
    {r : CloseReason} (hmem : (sym, p) ∈ st.open_positions)
    (hprice : lookupKey sym market = some price)
    (hr : p.should_close auto price = some r) :
    (sym, price, r) ∈ st.positions_to_close auto market := by
  unfold PnLSimulator.positions_to_close
  exact List.mem_filterMap.mpr ⟨(sym, p), hmem, by simp [hprice, hr]⟩

theorem not_mem_positions_to_close_fst {st : PnLSimulator} {auto : Bool}
    {market : List (String × ℚ)} {sym : String} {p : Position} {price : ℚ}
    (hnd : (st.open_positions.map Prod.fst).Nodup)
    (hmem : (sym, p) ∈ st.open_positions)
    (hprice : lookupKey sym market = some price)
    (hnone : p.should_close auto price = none) :
    sym ∉ (st.positions_to_close auto market).map Prod.fst := by
  intro hin
  obtain ⟨⟨s, pr, r⟩, hptc, hfst⟩ := List.mem_map.mp hin
  obtain ⟨⟨s', p'⟩, hmem', heq⟩ := List.mem_filterMap.mp hptc
  dsimp only at heq hfst
  subst hfst
  cases hm : lookupKey s' market with
  | none =>
    rw [hm] at heq
    exact Option.noConfusion heq
  | some cp =>
    rw [hm] at heq
    cases hs : p'.should_close auto cp with
    | none =>
      simp only [hs] at heq
      exact Option.noConfusion heq
    | some r' =>
      simp only [hs, Option.some.injEq, Prod.mk.injEq] at heq
      obtain ⟨h1, h2, h3⟩ := heq
      subst h1 h2 h3
      have hl1 : lookupKey s' st.open_positions = some p :=
        lookupKey_eq_some_of_mem_nodup hmem hnd
      have hl2 : lookupKey s' st.open_positions = some p' :=
        lookupKey_eq_some_of_mem_nodup hmem' hnd
      have hp : p' = p := by
        rw [hl1] at hl2
        exact ((Option.some.injEq _ _).mp hl2).symm
      rw [hm] at hprice
      have hcp : cp = price := (Option.some.injEq _ _).mp hprice
      rw [hp, hcp, hnone] at hs
      exact Option.noConfusion hs

theorem should_close_long_char (p : Position) (price : ℚ)
    (hside : p.side = PositionSide.LONG) :
    (p.should_close true price = some CloseReason.STOP_LOSS ↔
      price ≤ p.stop_loss) ∧
    (p.should_close true price = some CloseReason.TAKE_PROFIT ↔
      p.stop_loss < price ∧ p.take_profit ≤ price) := by
  by_cases h1 : price ≤ p.stop_loss <;> by_cases h2 : p.take_profit ≤ price <;>
    simp [Position.should_close, hside, h1, h2] <;>
      first
        | linarith
        | (intro h; linarith)

theorem should_close_short_char (p : Position) (price : ℚ)
    (hside : p.side = PositionSide.SHORT) :
    (p.should_close true price = some CloseReason.STOP_LOSS ↔
      p.stop_loss ≤ price) ∧
    (p.should_close true price = some CloseReason.TAKE_PROFIT ↔
      price < p.stop_loss ∧ price ≤ p.take_profit) := by
  by_cases h1 : p.stop_loss ≤ price <;> by_cases h2 : price ≤ p.take_profit <;>
    simp [Position.should_close, hside, h1, h2] <;>
      first
        | linarith
        | (intro h; linarith)

/-- C1: for every open position and every price supplied in the price map,
`update_positions` evaluates the bracket through `should_close`: with
`auto_close = true`, a LONG closes STOP_LOSS iff `price ≤ stop_loss` and
TAKE_PROFIT iff `stop_loss < price ∧ take_profit ≤ price` (so a price
exactly equal to the take profit closes TAKE_PROFIT, and STOP_LOSS wins
whenever both conditions hold); a SHORT closes STOP_LOSS iff
`stop_loss ≤ price` and TAKE_PROFIT iff `price < stop_loss ∧
price ≤ take_profit`; with `auto_close = false` no bracket evaluation
happens.  Whenever the bracket fires, `update_positions` removes the
position from the open set and emits a trade for the symbol with that
close reason at the observed price; otherwise the position stays open
unchanged. -/
theorem C1_update_positions_bracket (st : PnLSimulator) (auto_close : Bool)
    (market : List (String × ℚ)) (now : Nat) (sym : String) (p : Position)
    (price : ℚ) (hnd : (st.open_positions.map Prod.fst).Nodup)
    (hmem : (sym, p) ∈ st.open_positions)
    (hprice : lookupKey sym market = some price) :
    (auto_close = true → p.side = PositionSide.LONG →
      (p.should_close auto_close price = some CloseReason.STOP_LOSS ↔
        price ≤ p.stop_loss) ∧
      (p.should_close auto_close price = some CloseReason.TAKE_PROFIT ↔
        p.stop_loss < price ∧ p.take_profit ≤ price)) ∧
    (auto_close = true → p.side = PositionSide.SHORT →
      (p.should_close auto_close price = some CloseReason.STOP_LOSS ↔
        p.stop_loss ≤ price) ∧
      (p.should_close auto_close price = some CloseReason.TAKE_PROFIT ↔
        price < p.stop_loss ∧ price ≤ p.take_profit)) ∧
    (auto_close = false → p.should_close auto_close price = none) ∧
    (∀ r, p.should_close auto_close price = some r →
      lookupKey sym
        (st.update_positions auto_close market now).open_positions = none ∧
      ∃ t, t ∈ (st.update_positions auto_close market now).closed_trades ∧
        t.symbol = sym ∧ t.close_reason = r ∧ t.exit_price = price ∧
        t.side = p.side) ∧
    (p.should_close auto_close price = none →
      lookupKey sym
        (st.update_positions auto_close market now).open_positions = some p) := by
  refine ⟨?_, ?_, ?_, ?_, ?_⟩
  · intro ha hside; subst ha; exact should_close_long_char p price hside
  · intro ha hside; subst ha; exact should_close_short_char p price hside
  · intro ha; subst ha; simp [Position.should_close]
  · intro r hr
    have hmemc : (sym, price, r) ∈ st.positions_to_close auto_close market :=
      mem_positions_to_close hmem hprice hr
    have hl : lookupKey sym st.open_positions = some p :=
      lookupKey_eq_some_of_mem_nodup hmem hnd
    exact foldClose_hits now (st.positions_to_close auto_close market) st sym
      p price r hmemc (positions_to_close_fst_nodup st auto_close market hnd) hl
  · intro hr
    have hnin := not_mem_positions_to_close_fst hnd hmem hprice hr
    unfold PnLSimulator.update_positions
    rw [foldClose_lookup_not_mem now (st.positions_to_close auto_close market)
      st sym hnin]
    exact lookupKey_eq_some_of_mem_nodup hmem hnd

theorem C1_update_positions_bracket_witness :
    ((simE2.open_positions.map Prod.fst).Nodup ∧
      ("BTCUSDT", positionE2) ∈ simE2.open_positions ∧
      lookupKey "BTCUSDT" [("BTCUSDT", (979/10 : ℚ))] = some (979/10)) ∧
    (positionE2.should_close true (979/10) = some CloseReason.TAKE_PROFIT ↔
      (979/10 : ℚ) < positionE2.stop_loss ∧
        (979/10 : ℚ) ≤ positionE2.take_profit) := by
  have h := C1_update_positions_bracket simE2 true
    [("BTCUSDT", (979/10 : ℚ))] 3 "BTCUSDT" positionE2 (979/10)
    (by simp [simE2, mkSimulator]) (by simp [simE2, mkSimulator]) rfl
  exact ⟨⟨by simp [simE2, mkSimulator], by simp [simE2, mkSimulator], rfl⟩,
    (h.2.1 rfl rfl).2⟩

/-! ## Machinery for C8: balance accounting over operation sequences -/

/-- The state-changing simulator entry points (the observable mutators of
`PnLSimulator`): `open_position`, `close_position`, `update_positions`. -/
inductive SimOp where
  | opn (symbol side : String)
      (entry_price quantity stop_loss take_profit : ℚ) (now : Nat)
  | close (symbol : String) (exit_price : ℚ) (reason : CloseReason) (now : Nat)
  | update (auto_close : Bool) (market : List (String × ℚ)) (now : Nat)

/-- Apply one simulator entry point to the state. -/
def applySimOp (st : PnLSimulator) : SimOp → PnLSimulator
  | SimOp.opn symbol side e q sl tp now =>
    (st.open_position symbol side e q sl tp now).2
  | SimOp.close symbol x r now => (st.close_position symbol x r now).2
  | SimOp.update auto market now => st.update_positions auto market now

/-- Run a sequence of simulator calls. -/
def runSimOps (st : PnLSimulator) (ops : List SimOp) : PnLSimulator :=
  ops.foldl applySimOp st

/-- Sum of `real_pnl` over a list of closed trades. -/
def sum_real_pnl (l : List ClosedTrade) : ℚ :=
  (l.map ClosedTrade.real_pnl).sum

/-- The C8 invariant: the current balance equals the initial balance plus
the realised PnL of all closed trades. -/
def balance_invariant (st : PnLSimulator) : Prop :=
  st.current_balance = st.initial_balance + sum_real_pnl st.closed_trades

theorem open_position_fields (st : PnLSimulator) (symbol side : String)
    (e q sl tp : ℚ) (now : Nat) :
    (st.open_position symbol side e q sl tp now).2.current_balance =
        st.current_balance ∧
      (st.open_position symbol side e q sl tp now).2.closed_trades =
        st.closed_trades ∧
      (st.open_position symbol side e q sl tp now).2.initial_balance =
        st.initial_balance := by
  by_cases hcap : st.can_open_position = false <;>
    by_cases hex : (lookupKey symbol st.open_positions).isSome <;>
      simp [PnLSimulator.open_position, hcap, hex]

theorem close_position_invariant (st : PnLSimulator) (symbol : String)
    (x : ℚ) (r : CloseReason) (now : Nat) (h : balance_invariant st) :
    balance_invariant (st.close_position symbol x r now).2 := by
  cases hl : lookupKey symbol st.open_positions with
  | none => simpa [PnLSimulator.close_position, hl] using h
  | some p =>
    unfold balance_invariant at h ⊢
    simp only [PnLSimulator.close_position, hl]
    simp [sum_real_pnl, h]
    ring

theorem foldClose_invariant (now : Nat) :
    ∀ (L : List (String × ℚ × CloseReason)) (st : PnLSimulator),
      balance_invariant st → balance_invariant (foldClose st now L) := by
  intro L
  induction L with
  | nil => intro st h; simpa [foldClose_nil] using h
  | cons a L ih =>
    intro st h
    rw [foldClose_cons]
    exact ih _ (close_position_invariant st a.1 a.2.1 a.2.2 now h)

theorem applySimOp_invariant (st : PnLSimulator) (op : SimOp)
    (h : balance_invariant st) : balance_invariant (applySimOp st op) := by
  cases op with
  | opn symbol side e q sl tp now =>
    unfold balance_invariant at h ⊢
    have hf := open_position_fields st symbol side e q sl tp now
    rw [applySimOp, hf.1, hf.2.1, hf.2.2]
    exact h
  | close symbol x r now =>
    exact close_position_invariant st symbol x r now h
  | update auto market now =>
    exact foldClose_invariant now _ st h

/-- C8: at every observable moment (any state reached from a freshly
constructed simulator by a sequence of `open_position` /
`close_position` / `update_positions` calls), the current balance equals
the initial balance plus the sum of `real_pnl` over all closed trades;
and `open_position` never changes the current balance. -/
theorem C8_balance_accounting (initial_balance : ℚ) (max_positions : Nat)
    (ops : List SimOp) :
    balance_invariant (runSimOps (mkSimulator initial_balance max_positions)
      ops) ∧
    ∀ (st : PnLSimulator) (symbol side : String) (e q sl tp : ℚ) (now : Nat),
      (st.open_position symbol side e q sl tp now).2.current_balance =
        st.current_balance := by
  constructor
  · have hrun : ∀ (l : List SimOp) (st : PnLSimulator),
        balance_invariant st → balance_invariant (runSimOps st l) := by
      intro l
      induction l with
      | nil => intro st h; simpa [runSimOps] using h
      | cons op l ih =>
        intro st h
        exact ih _ (applySimOp_invariant st op h)
    exact hrun ops _ (by simp [balance_invariant, mkSimulator, sum_real_pnl])
  · intro st symbol side e q sl tp now
    exact (open_position_fields st symbol side e q sl tp now).1

/-! ## Data cache byte accounting (`data_cache.py`)

The cache is an `OrderedDict` from key to `CacheEntry`; for the byte
budget and invalidation semantics the relevant content of an entry is its
`size_bytes`, so the resident set is modelled as an association list
`key ↦ size` with the LRU entry at the head.  `current_size_bytes` is
maintained by the source in lockstep with the stored entries (every
mutation goes through `_remove_entry` or the `put` tail), so it is
modelled as the derived sum `total_bytes`.  The float comparison
`current_size_bytes > max_size_bytes * 0.8` is modelled exactly as
`10 * current > 8 * max`. -/

/-- Resident bytes: the sum of `size_bytes` over all stored entries. -/
def total_bytes (c : List (String × Nat)) : Nat :=
  (c.map Prod.snd).sum

/-- `DataCache._evict_lru`: `while current > 0.8 * max and cache:` remove
the oldest (head) entry. -/
def evict_lru (max_size_bytes : Nat) : List (String × Nat) → List (String × Nat)
  | [] => []
  | e :: rest =>
    if 8 * max_size_bytes < 10 * total_bytes (e :: rest) then
      evict_lru max_size_bytes rest
    else e :: rest

/-- `DataCache._ensure_capacity`. -/
def ensure_capacity (max_size_bytes : Nat) (c : List (String × Nat))
    (new_entry_size : Nat) : List (String × Nat) :=
  if max_size_bytes < total_bytes c + new_entry_size then
    evict_lru max_size_bytes c
  else c

/-- `DataCache.put` (byte accounting): ensure capacity for the new entry,
remove any existing entry for the key, then append the entry at the MRU
end. -/
def cache_put (max_size_bytes : Nat) (c : List (String × Nat)) (key : String)
    (size : Nat) : List (String × Nat) :=
  let c1 := ensure_capacity max_size_bytes c size
  let c2 := if (lookupKey key c1).isSome then removeKey key c1 else c1
  c2 ++ [(key, size)]

/-- `DataCache.get` on a hit: `move_to_end` the accessed key. -/
def touch_entry (key : String) (c : List (String × Nat)) :
    List (String × Nat) :=
  match lookupKey key c with
  | none => c
  | some v => removeKey key c ++ [(key, v)]

/-- The cache operations that change the resident set: `put`, entry
removal (`_remove_entry`, reached from expiry sweeps, `get` misses on
expired/stale/force-refresh entries and `invalidate`), and the
`move_to_end` of a `get` hit. -/
inductive CacheOp where
  | put (key : String) (size : Nat)
  | remove (key : String)
  | touch (key : String)

/-- Apply one cache operation. -/
def cache_step (max_size_bytes : Nat) (c : List (String × Nat)) :
    CacheOp → List (String × Nat)
  | CacheOp.put key size => cache_put max_size_bytes c key size
  | CacheOp.remove key => removeKey key c
  | CacheOp.touch key => touch_entry key c

/-- Run a sequence of cache operations from the empty cache. -/
def run_cache (max_size_bytes : Nat) (ops : List CacheOp) :
    List (String × Nat) :=
  ops.foldl (cache_step max_size_bytes) []

/-- Entry-size discipline under which the byte budget is respected: every
inserted entry is at most 20 % of the budget. -/
def size_ok (max_size_bytes : Nat) : CacheOp → Bool
  | CacheOp.put _ size => decide (10 * size ≤ 2 * max_size_bytes)
  | CacheOp.remove _ => true
  | CacheOp.touch _ => true

theorem total_bytes_append (a b : List (String × Nat)) :
    total_bytes (a ++ b) = total_bytes a + total_bytes b := by
  simp [total_bytes]

theorem total_bytes_cons (kv : String × Nat) (t : List (String × Nat)) :
    total_bytes (kv :: t) = kv.2 + total_bytes t := by
  simp [total_bytes]

theorem total_bytes_removeKey_le (key : String) (c : List (String × Nat)) :
    total_bytes (removeKey key c) ≤ total_bytes c := by
  induction c with
  | nil => simp [removeKey]
  | cons kv t ih =>
    by_cases h : kv.1 = key
    · rw [show removeKey key (kv :: t) = removeKey key t by
        simp [removeKey, h], total_bytes_cons]
      omega
    · rw [show removeKey key (kv :: t) = kv :: removeKey key t by
        simp [removeKey, h], total_bytes_cons, total_bytes_cons]
      omega

theorem total_bytes_evict_le (max_size_bytes : Nat)
    (c : List (String × Nat)) :
    10 * total_bytes (evict_lru max_size_bytes c) ≤ 8 * max_size_bytes := by
  induction c with
  | nil => simp [evict_lru, total_bytes]
  | cons e t ih =>
    by_cases h : 8 * max_size_bytes < 10 * total_bytes (e :: t)
    · simpa [evict_lru, h] using ih
    · simp only [evict_lru, h, if_false]
      omega

theorem total_bytes_removeKey_add (key : String) (v : Nat)
    (c : List (String × Nat)) (h : lookupKey key c = some v) :
    total_bytes (removeKey key c) + v ≤ total_bytes c := by
  induction c with
  | nil => cases h
  | cons kv t ih =>
    by_cases he : kv.1 = key
    · have hv : kv.2 = v := by
        simp only [lookupKey, he, if_pos] at h
        exact (Option.some.injEq _ _).mp h
      have h1 := total_bytes_removeKey_le key t
      rw [show removeKey key (kv :: t) = removeKey key t by
        simp [removeKey, he], total_bytes_cons]
      omega
    · have h2 : lookupKey key t = some v := by
        simpa only [lookupKey, he, if_neg, not_false_iff] using h
      have h1 := ih h2
      rw [show removeKey key (kv :: t) = kv :: removeKey key t by
        simp [removeKey, he], total_bytes_cons, total_bytes_cons]
      omega

theorem total_bytes_touch_le (key : String) (c : List (String × Nat)) :
    total_bytes (touch_entry key c) ≤ total_bytes c := by
  cases h : lookupKey key c with
  | none => simp [touch_entry, h]
  | some v =>
    have h1 := total_bytes_removeKey_add key v c h
    have h2 : total_bytes [(key, v)] = v := by simp [total_bytes]
    simp only [touch_entry, h, total_bytes_append]
    omega

theorem cache_put_bound (max_size_bytes : Nat) (c : List (String × Nat))
    (key : String) (size : Nat) (hc : total_bytes c ≤ max_size_bytes)
    (hs : 10 * size ≤ 2 * max_size_bytes) :
    total_bytes (cache_put max_size_bytes c key size) ≤ max_size_bytes := by
  unfold cache_put ensure_capacity
  by_cases hcap : max_size_bytes < total_bytes c + size
  · simp only [hcap, if_true]
    have he := total_bytes_evict_le max_size_bytes c
    have h2 : total_bytes
        (if (lookupKey key (evict_lru max_size_bytes c)).isSome then
          removeKey key (evict_lru max_size_bytes c)
        else evict_lru max_size_bytes c) ≤
        total_bytes (evict_lru max_size_bytes c) := by
      split
      · exact total_bytes_removeKey_le _ _
      · exact le_refl _
    have h3 : total_bytes [(key, size)] = size := by simp [total_bytes]
    rw [total_bytes_append]
    omega
  · simp only [hcap, if_false]
    have h2 : total_bytes
        (if (lookupKey key c).isSome then removeKey key c else c) ≤
        total_bytes c := by
      split
      · exact total_bytes_removeKey_le _ _
      · exact le_refl _
    have h3 : total_bytes [(key, size)] = size := by simp [total_bytes]
    rw [total_bytes_append]
    omega

theorem cache_step_bound (max_size_bytes : Nat) (c : List (String × Nat))
    (op : CacheOp) (hc : total_bytes c ≤ max_size_bytes)
    (hop : size_ok max_size_bytes op = true) :
    total_bytes (cache_step max_size_bytes c op) ≤ max_size_bytes := by
  cases op with
  | put key size =>
    simp only [size_ok, decide_eq_true_eq] at hop
    exact cache_put_bound max_size_bytes c key size hc hop
  | remove key => exact le_trans (total_bytes_removeKey_le key c) hc
  | touch key => exact le_trans (total_bytes_touch_le key c) hc

/-- C5 counterexample: with a 1 MB budget, a single `put` of a
2 000 000-byte entry leaves the resident set at 2 000 000 bytes, above
the budget — eviction only runs down to 80 % of the budget *before*
inserting and never rejects the oversized entry. -/
theorem C5_cache_bound_counterexample :
    1 * 1024 * 1024 <
      total_bytes (run_cache (1 * 1024 * 1024) [CacheOp.put "k" 2000000]) := by
  decide

/-- C5 (amended): the resident byte total stays ≤ `maxSizeMB · 1 048 576`
for every sequence of put / remove / touch operations *provided* every
inserted entry is at most 20 % of the budget (an entry bigger than that —
in particular one bigger than the whole budget — can exceed the bound,
because `_ensure_capacity` only evicts LRU entries down to 80 % of the
budget and never rejects the new entry); moreover eviction always leaves
the resident set at ≤ 80 % of the budget. -/
theorem C5_cache_byte_bound (max_size_mb : Nat) (ops : List CacheOp)
    (h : ∀ op ∈ ops, size_ok (max_size_mb * 1024 * 1024) op = true) :
    total_bytes (run_cache (max_size_mb * 1024 * 1024) ops) ≤
        max_size_mb * 1024 * 1024 ∧
      ∀ c : List (String × Nat),
        10 * total_bytes (evict_lru (max_size_mb * 1024 * 1024) c) ≤
          8 * (max_size_mb * 1024 * 1024) := by
  refine ⟨?_, fun c => total_bytes_evict_le _ c⟩
  have hrun : ∀ (l : List CacheOp) (c : List (String × Nat)),
      total_bytes c ≤ max_size_mb * 1024 * 1024 →
      (∀ op ∈ l, size_ok (max_size_mb * 1024 * 1024) op = true) →
      total_bytes (l.foldl (cache_step (max_size_mb * 1024 * 1024)) c) ≤
        max_size_mb * 1024 * 1024 := by
    intro l
    induction l with
    | nil => intro c hc _; simpa using hc
    | cons op l ih =>
      intro c hc hall
      rw [List.foldl_cons]
      exact ih _ (cache_step_bound _ c op hc (hall op (List.mem_cons_self op l)))
        (fun op' hm => hall op' (List.mem_cons_of_mem op hm))
  exact hrun ops [] (by simp [total_bytes]) h

theorem C5_cache_byte_bound_witness :
    (∀ op ∈ [CacheOp.put "a" 200000, CacheOp.put "b" 200000,
        CacheOp.put "c" 200000, CacheOp.put "a" 100, CacheOp.touch "b",
        CacheOp.remove "c"], size_ok (1 * 1024 * 1024) op = true) ∧
    total_bytes (run_cache (1 * 1024 * 1024)
      [CacheOp.put "a" 200000, CacheOp.put "b" 200000,
        CacheOp.put "c" 200000, CacheOp.put "a" 100, CacheOp.touch "b",
        CacheOp.remove "c"]) ≤ 1 * 1024 * 1024 :=
  ⟨by decide,
    (C5_cache_byte_bound 1
      [CacheOp.put "a" 200000, CacheOp.put "b" 200000,
        CacheOp.put "c" 200000, CacheOp.put "a" 100, CacheOp.touch "b",
        CacheOp.remove "c"] (by decide)).1⟩

/-! ## Cache invalidation (`DataCache.invalidate`) -/

/-- Does `needle` occur at the start of `hay`? -/
def lead_match : List Char → List Char → Bool
  | [], _ => true
  | _ :: _, [] => false
  | a :: as, b :: bs => a == b && lead_match as bs

/-- Does `needle` occur contiguously anywhere in `hay`? -/
def has_sub (needle : List Char) : List Char → Bool
  | [] => lead_match needle []
  | c :: t => lead_match needle (c :: t) || has_sub needle t

/-- Python's `needle in hay` on strings: contiguous substring test. -/
def py_in (needle hay : String) : Bool :=
  has_sub needle.toList hay.toList

/-- The per-key condition of `DataCache.invalidate`:
`symbol in key and (timeframe is None or timeframe in key)`. -/
def invalidate_matches (symbol : String) (timeframe : Option String)
    (key : String) : Bool :=
  py_in symbol key &&
    match timeframe with
    | none => true
    | some tf => py_in tf key

/-- `DataCache.invalidate`: collect the keys whose key string contains
`symbol` (and `timeframe`, when given) as a substring, then remove each
collected key. -/
def cache_invalidate (symbol : String) (timeframe : Option String)
    (c : List (String × Nat)) : List (String × Nat) :=
  let keys_to_remove :=
    (c.filter (fun kv => invalidate_matches symbol timeframe kv.1)).map
      Prod.fst
  keys_to_remove.foldl (fun acc key => removeKey key acc) c

theorem removeKey_eq_filter {α : Type} (k : String) (l : List (String × α)) :
    removeKey k l = l.filter (fun kv => !(kv.1 == k)) := by
  induction l with
  | nil => rfl
  | cons kv t ih => by_cases h : kv.1 = k <;> simp [removeKey, h, ih]

theorem foldl_removeKey_eq_filter {α : Type} :
    ∀ (K : List String) (c : List (String × α)),
      K.foldl (fun acc key => removeKey key acc) c =
        c.filter (fun kv => !(K.any (fun key => kv.1 == key))) := by
  intro K
  induction K with
  | nil => intro c; simp
  | cons k K ih =>
    intro c
    rw [List.foldl_cons, ih, removeKey_eq_filter, List.filter_filter]
    apply List.filter_congr
    intro kv _
    simp only [List.any_cons, Bool.not_or]
    rw [Bool.and_comm]

/-- C10: `invalidate(symbol, timeframe?)` removes exactly those cache
entries whose key contains `symbol` as a substring (and, when given,
`timeframe` as a substring): the resulting cache is the original filtered
on the negation of that condition.  Consequently it also removes entries
of a different symbol whose key merely contains the string — invalidating
"BTC" removes a "BTCUSDT" entry — and no entry whose key contains the
symbol (and timeframe) remains. -/
theorem C10_invalidate_substring (symbol : String) (timeframe : Option String)
    (c : List (String × Nat)) :
    cache_invalidate symbol timeframe c =
      c.filter (fun kv => !(invalidate_matches symbol timeframe kv.1)) ∧
    (∀ kv ∈ cache_invalidate symbol timeframe c,
      invalidate_matches symbol timeframe kv.1 = false) ∧
    cache_invalidate "BTC" none
        [("BTCUSDT_1h_t100_t200_500", 10), ("ETHUSDT_1h_t100_t200_500", 7)] =
      [("ETHUSDT_1h_t100_t200_500", 7)] := by
  have hmain : cache_invalidate symbol timeframe c =
      c.filter (fun kv => !(invalidate_matches symbol timeframe kv.1)) := by
    unfold cache_invalidate
    rw [foldl_removeKey_eq_filter]
    apply List.filter_congr
    intro kv hkv
    congr 1
    by_cases hm : invalidate_matches symbol timeframe kv.1 = true
    · rw [hm]
      apply List.any_eq_true.mpr
      refine ⟨kv.1, List.mem_map.mpr ⟨kv, List.mem_filter.mpr ⟨hkv, hm⟩, rfl⟩,
        by simp⟩
    · rw [Bool.eq_false_iff.mpr hm]
      apply Bool.eq_false_iff.mpr
      intro hany
      obtain ⟨key, hkey, hbeq⟩ := List.any_eq_true.mp hany
      obtain ⟨kv', hkv', hfst⟩ := List.mem_map.mp hkey
      have hkeq : kv.1 = key := by simpa using hbeq
      have hm' : invalidate_matches symbol timeframe kv'.1 = true :=
        (List.mem_filter.mp hkv').2
      rw [hfst, ← hkeq] at hm'
      exact hm hm'
  refine ⟨hmain, ?_, by decide⟩
  intro kv hkv
  rw [hmain] at hkv
  have := (List.mem_filter.mp hkv).2
  simpa using this

/-! ## DataRequest cache keys (`data_models.py`)

`datetime` values are modelled as absolute minutes (`Nat`);
`strftime('%Y%m%d_%H%M')` is injective at minute resolution and is
modelled by `toString` of the minute count. -/

/-- `@dataclass class DataRequest` with its defaulted fields. -/
structure DataRequest where
  symbol : String
  timeframe : String
  start_time : Option Nat := none
  end_time : Option Nat := none
  limit : Nat := 1000
  use_cache : Bool := true
  cache_timeout : Nat := 300
  force_refresh : Bool := false
  validate_data : Bool := true
  fill_missing : Bool := false
deriving DecidableEq, Repr

/-- `DataRequest._get_timeframe_minutes`. -/
def DataRequest.get_timeframe_minutes (r : DataRequest) : Nat :=
  match r.timeframe with
  | "1m" => 1
  | "5m" => 5
  | "15m" => 15
  | "30m" => 30
  | "1h" => 60
  | "4h" => 240
  | "1d" => 1440
  | _ => 60

/-- `DataRequest.__post_init__`: default `end_time` to `datetime.now()`
(the `now` parameter) and `start_time` to
`end_time - timeframe_minutes * limit`. -/
def DataRequest.post_init (r : DataRequest) (now : Nat) : DataRequest :=
  let et := match r.end_time with
    | none => now
    | some t => t
  let st := match r.start_time with
    | none => et - r.get_timeframe_minutes * r.limit
    | some t => t
  { r with end_time := some et, start_time := some st }

/-- `strftime('%Y%m%d_%H%M')` of a minute-resolution timestamp. -/
def fmt_minute (t : Nat) : String := toString t

/-- `DataRequest.get_cache_key`:
`f"{symbol}_{timeframe}_{start_str}_{end_str}_{limit}"`. -/
def DataRequest.get_cache_key (r : DataRequest) : String :=
  let start_str := match r.start_time with
    | some t => fmt_minute t
    | none => "none"
  let end_str := match r.end_time with
    | some t => fmt_minute t
    | none => "none"
  r.symbol ++ "_" ++ r.timeframe ++ "_" ++ start_str ++ "_" ++ end_str ++
    "_" ++ toString r.limit

/-- C4 counterexample: two `DataRequest`s with the same symbol, interval
and limit, constructed one minute apart (so `__post_init__` fills in
different default `end_time`s), produce different cache keys — the key
also encodes the start/end time strings, not just
`symbol | interval | limit`. -/
theorem C4_cache_key_counterexample :
    (DataRequest.post_init
        { symbol := "BTCUSDT", timeframe := "1h", limit := 500 }
        100000).symbol =
      (DataRequest.post_init
        { symbol := "BTCUSDT", timeframe := "1h", limit := 500 }
        100001).symbol ∧
    (DataRequest.post_init
        { symbol := "BTCUSDT", timeframe := "1h", limit := 500 }
        100000).timeframe =
      (DataRequest.post_init
        { symbol := "BTCUSDT", timeframe := "1h", limit := 500 }
        100001).timeframe ∧
    (DataRequest.post_init
        { symbol := "BTCUSDT", timeframe := "1h", limit := 500 }
        100000).limit =
      (DataRequest.post_init
        { symbol := "BTCUSDT", timeframe := "1h", limit := 500 }
        100001).limit ∧
    (DataRequest.post_init
        { symbol := "BTCUSDT", timeframe := "1h", limit := 500 }
        100000).get_cache_key ≠
      (DataRequest.post_init
        { symbol := "BTCUSDT", timeframe := "1h", limit := 500 }
        100001).get_cache_key := by
  refine ⟨rfl, rfl, rfl, ?_⟩
  decide

/-- C4 (amended): the cache key is a deterministic function of exactly
(symbol, timeframe, start_time, end_time, limit): two requests agreeing
on those five fields produce equal keys regardless of every other field
(use_cache, cache_timeout, force_refresh, validate_data, fill_missing);
requests that differ in construction time get different default
`end_time`s and hence different keys. -/
theorem C4_cache_key_determined (r1 r2 : DataRequest)
    (hs : r1.symbol = r2.symbol) (ht : r1.timeframe = r2.timeframe)
    (hl : r1.limit = r2.limit) (hst : r1.start_time = r2.start_time)
    (het : r1.end_time = r2.end_time) :
    r1.get_cache_key = r2.get_cache_key := by
  unfold DataRequest.get_cache_key
  rw [hs, ht, hl, hst, het]

/-- A concrete request with explicit times. -/
def requestA : DataRequest :=
  { symbol := "BTCUSDT", timeframe := "1h", start_time := some 1,
    end_time := some 2, limit := 500 }

/-- `requestA` with the cache-behaviour flags flipped. -/
def requestB : DataRequest :=
  { requestA with force_refresh := true, use_cache := false }

theorem C4_cache_key_determined_witness :
    (requestA.symbol = requestB.symbol ∧
      requestA.timeframe = requestB.timeframe ∧
      requestA.limit = requestB.limit ∧
      requestA.start_time = requestB.start_time ∧
      requestA.end_time = requestB.end_time) ∧
    requestA.get_cache_key = requestB.get_cache_key :=
  ⟨⟨rfl, rfl, rfl, rfl, rfl⟩,
    C4_cache_key_determined requestA requestB rfl rfl rfl rfl rfl⟩

/-! ## Trend Magic V3 (`technical_indicators.py`, `trend_magic_v3`)

`cci` and `atr` are produced by the external TA-Lib calls and carry
leading `NaN`s; they are modelled as arbitrary `Option ℚ` sequences.
`low`/`high` are the OHLCV columns.  Python specifics mirrored here:
`nan >= 0` and `nan > 0` are `False`; CPython's two-argument `max(a, p)`
returns `p` only when `p > a`, so a `NaN` second argument yields `a`
(symmetrically for `min`). -/

/-- Python `x >= 0` on a possibly-NaN float. -/
def cci_ge_zero : Option ℚ → Bool
  | some c => decide (0 ≤ c)
  | none => false

/-- Python `x > 0` on a possibly-NaN float. -/
def cci_gt_zero : Option ℚ → Bool
  | some c => decide (0 < c)
  | none => false

/-- CPython `max(a, prev)` with a possibly-NaN `prev`. -/
def py_max (a : ℚ) : Option ℚ → ℚ
  | none => a
  | some m => if a < m then m else a

/-- CPython `min(a, prev)` with a possibly-NaN `prev`. -/
def py_min (a : ℚ) : Option ℚ → ℚ
  | none => a
  | some m => if m < a then m else a

/-- `up = low - atr * coeff` (NaN wherever ATR is NaN). -/
def upT (low : Nat → ℚ) (atr : Nat → Option ℚ) (coeff : ℚ) (i : Nat) :
    Option ℚ :=
  (atr i).map (fun a => low i - a * coeff)

/-- `down = high + atr * coeff` (NaN wherever ATR is NaN). -/
def downT (high : Nat → ℚ) (atr : Nat → Option ℚ) (coeff : ℚ) (i : Nat) :
    Option ℚ :=
  (atr i).map (fun a => high i + a * coeff)

/-- The `magic_trend` loop of `trend_magic_v3`: at each index, branch on
`cci[i] >= 0`; take `max(up[i], magic[i-1])` (resp. `min(down[i], ...)`)
when the band is present (`up[i]`/`down[i]` at index 0), and inherit
`magic[i-1]` (NaN at index 0) when it is missing. -/
def magic_trend (low high : Nat → ℚ) (cci atr : Nat → Option ℚ)
    (coeff : ℚ) : Nat → Option ℚ
  | 0 =>
    if cci_ge_zero (cci 0) then upT low atr coeff 0
    else downT high atr coeff 0
  | i + 1 =>
    if cci_ge_zero (cci (i + 1)) then
      match upT low atr coeff (i + 1) with
      | some u => some (py_max u (magic_trend low high cci atr coeff i))
      | none => magic_trend low high cci atr coeff i
    else
      match downT high atr coeff (i + 1) with
      | some d => some (py_min d (magic_trend low high cci atr coeff i))
      | none => magic_trend low high cci atr coeff i

/-- `current_color = 'BLUE' if cci[i] > 0 else 'RED'` of `trend_magic_v3`
(also used for the reported color at the final bar). -/
def tm_color (c : Option ℚ) : String :=
  if cci_gt_zero c then "BLUE" else "RED"

theorem py_max_some (a m : ℚ) : py_max a (some m) = max a m := by
  by_cases h : a < m
  · simp [py_max, h, max_eq_right h.le]
  · simp [py_max, h, max_eq_left (not_lt.mp h)]

theorem py_min_some (a m : ℚ) : py_min a (some m) = min a m := by
  by_cases h : m < a
  · simp [py_min, h, min_eq_right h.le]
  · simp [py_min, h, min_eq_left (not_lt.mp h)]

/-- C6: the trend-magic line satisfies the claimed recurrence: with
`upper[i] = low[i] − ATR[i]·coeff` and `lower[i] = high[i] + ATR[i]·coeff`,
`magic[i] = max(upper[i], magic[i−1])` when `CCI[i] ≥ 0` and
`magic[i] = min(lower[i], magic[i−1])` otherwise, with base cases
`upper[0]` / `lower[0]`, and `magic[i]` inheriting `magic[i−1]` when the
band value is missing; and the reported color is BLUE exactly when the
CCI value at the bar is > 0 (RED otherwise, including NaN). -/
theorem C6_trend_magic_recurrence (low high : Nat → ℚ)
    (cci atr : Nat → Option ℚ) (coeff : ℚ) :
    (∀ c a, cci 0 = some c → 0 ≤ c → atr 0 = some a →
      magic_trend low high cci atr coeff 0 = some (low 0 - a * coeff)) ∧
    (∀ a, cci_ge_zero (cci 0) = false → atr 0 = some a →
      magic_trend low high cci atr coeff 0 = some (high 0 + a * coeff)) ∧
    (∀ i c a m, cci (i + 1) = some c → 0 ≤ c → atr (i + 1) = some a →
      magic_trend low high cci atr coeff i = some m →
      magic_trend low high cci atr coeff (i + 1) =
        some (max (low (i + 1) - a * coeff) m)) ∧
    (∀ i a m, cci_ge_zero (cci (i + 1)) = false → atr (i + 1) = some a →
      magic_trend low high cci atr coeff i = some m →
      magic_trend low high cci atr coeff (i + 1) =
        some (min (high (i + 1) + a * coeff) m)) ∧
    (∀ i, atr (i + 1) = none →
      magic_trend low high cci atr coeff (i + 1) =
        magic_trend low high cci atr coeff i) ∧
    (∀ i, tm_color (cci i) = "BLUE" ↔ ∃ c, cci i = some c ∧ 0 < c) := by
  refine ⟨?_, ?_, ?_, ?_, ?_, ?_⟩
  · intro c a hc h0 ha
    simp [magic_trend, cci_ge_zero, hc, h0, upT, ha]
  · intro a hc ha
    simp [magic_trend, hc, downT, ha]
  · intro i c a m hc h0 ha hm
    simp [magic_trend, cci_ge_zero, hc, h0, upT, ha, hm, py_max_some]
  · intro i a m hc ha hm
    simp [magic_trend, hc, downT, ha, hm, py_min_some]
  · intro i ha
    cases hcge : cci_ge_zero (cci (i + 1)) <;>
      simp [magic_trend, hcge, upT, downT, ha]
  · intro i
    cases hc : cci i with
    | none => simp [tm_color, cci_gt_zero]
    | some c =>
      by_cases h0 : 0 < c <;> simp [tm_color, cci_gt_zero, h0]

theorem C6_trend_magic_recurrence_witness :
    magic_trend (fun _ => 10) (fun _ => 20) (fun _ => some 1)
        (fun _ => some 2) 1 1 =
      some (max ((10 : ℚ) - 2 * 1) 8) := by
  have h := C6_trend_magic_recurrence (fun _ => 10) (fun _ => 20)
    (fun _ => some 1) (fun _ => some 2) 1
  have hm := h.1 1 2 rfl (by norm_num) rfl
  rw [show ((10 : ℚ) - 2 * 1) = 8 from by norm_num] at hm
  exact h.2.2.1 0 1 2 8 rfl (by norm_num) rfl hm
